import Mathlib

/-!
Shallow embedding of the klaudiush validation-dispatcher core, translated
from the Go sources, together with theorems settling the spec claims.

External libraries the code calls (encoding/json's lexical layer, go-toml,
go-conventionalcommits, the shell parser) are modelled as explicit function
parameters where their internals do not decide a claim; repository code is
translated directly.
-/

namespace Klaudiush

/-! ## Result taxonomy -/

/-- Modelled from the spec: the `internal/validator` Result record is not in
the sources (only its callers and tests are).  Fields per the spec data
model: `Passed`, `ShouldBlock` (only meaningful when not passed), message,
code, fix hint, reference URL, and key/value details. -/
structure Result where
  Passed : Bool
  ShouldBlock : Bool
  Message : String := ""
  Code : String := ""
  FixHint : String := ""
  Reference : String := ""
  Details : List (String × String) := []
deriving DecidableEq, Repr

/-- Modelled from the spec: `Pass()` — allow. -/
def Result.Pass : Result :=
  { Passed := true, ShouldBlock := false }

/-- Modelled from the spec: `Warn(msg)` — allow but surface a warning.
The PR-validator test states "Warnings return Passed=false with
ShouldBlock=false". -/
def Result.Warn (msg : String) : Result :=
  { Passed := false, ShouldBlock := false, Message := msg }

/-- Modelled from the spec: `Fail(msg)` — block. -/
def Result.Fail (msg : String) : Result :=
  { Passed := false, ShouldBlock := true, Message := msg }

/-- Modelled from the spec: `FailWithCode(code, msg, fix, ref)` — block with
an actionable diagnostic. -/
def Result.FailWithCode (code msg fixHint ref : String) : Result :=
  { Passed := false, ShouldBlock := true, Message := msg, Code := code,
    FixHint := fixHint, Reference := ref }

/-- Modelled from the spec: `WarnWithDetails(msg, details)` — warn carrying
key/value details (used by the Terraform validator). -/
def Result.WarnWithDetails (msg : String) (details : List (String × String)) : Result :=
  { Passed := false, ShouldBlock := false, Message := msg, Details := details }

/-- Modelled from the spec: `FailWithDetails(msg, details)` — block carrying
key/value details (used by the markdown validator). -/
def Result.FailWithDetails (msg : String) (details : List (String × String)) : Result :=
  { Passed := false, ShouldBlock := true, Message := msg, Details := details }

/-- A Result produced through the validator-contract constructors. -/
def Result.Constructed (r : Result) : Prop :=
  r = Result.Pass ∨
    (∃ m, r = Result.Warn m) ∨
    (∃ m, r = Result.Fail m) ∨
    (∃ c m f u, r = Result.FailWithCode c m f u) ∨
    (∃ m d, r = Result.WarnWithDetails m d) ∨
    (∃ m d, r = Result.FailWithDetails m d)

/-! ## Session configuration (`src/pkg/config/session.go`) -/

/-- `DefaultMaxSessionAge = 24 * time.Hour`, in nanoseconds
(`time.Duration` is a nanosecond count). -/
def DefaultMaxSessionAge : Int := 24 * 60 * 60 * 1000000000

/-- `SessionConfig` from `src/pkg/config/session.go`; `MaxSessionAge` is a
`Duration` (int64 nanoseconds, zero when unset). -/
structure SessionConfig where
  Enabled : Option Bool := none
  StateFile : String := ""
  MaxSessionAge : Int := 0
deriving DecidableEq, Repr

/-- `SessionConfig.GetMaxSessionAge` from `src/pkg/config/session.go`: the
Go receiver may be nil, modelled by `Option`.  Returns the default when the
receiver is nil or `MaxSessionAge` is zero. -/
def SessionConfig.GetMaxSessionAge : Option SessionConfig → Int
  | none => DefaultMaxSessionAge
  | some c => if c.MaxSessionAge = 0 then DefaultMaxSessionAge else c.MaxSessionAge

/-! ## Configuration loader (`src/unnamed/part_011`, package `internal/config`) -/

/-- Stat/read view of a config file: its permission bits (the lower nine
mode bits, `info.Mode().Perm()`) and its contents. -/
structure FSFile where
  perm : Nat
  data : String
deriving DecidableEq, Repr

/-- Errors of `Loader.LoadFile`; `invalidTOML` wraps the decoder message. -/
inductive LoadFileError where
  | configNotFound
  | invalidPermissions
  | invalidTOML (msg : String)
deriving DecidableEq, Repr

/-- `Loader.LoadFile` from `src/unnamed/part_011`: stat (absent file →
`ErrConfigNotFound`), refuse world-writable permissions
(`perm &&& 0o002 ≠ 0` → `ErrInvalidPermissions`), then decode the contents
as TOML.  The go-toml decoder is an external library, passed as `tomlDecode`. -/
def Loader.LoadFile {Cfg : Type} (tomlDecode : String → Except String Cfg)
    (file : Option FSFile) : Except LoadFileError Cfg :=
  match file with
  | none => Except.error LoadFileError.configNotFound
  | some f =>
    if f.perm &&& 2 ≠ 0 then
      Except.error LoadFileError.invalidPermissions
    else
      match tomlDecode f.data with
      | Except.error e => Except.error (LoadFileError.invalidTOML e)
      | Except.ok cfg => Except.ok cfg

/-! ## Terraform validator: tflint (`src/unnamed/part_002`) -/

/-- Whitespace per `strings.TrimSpace` (the cases arising in linter output). -/
def isSpaceChar (c : Char) : Bool :=
  c = ' ' || c = '\t' || c = '\n' || c = '\r'

/-- `strings.TrimSpace`. -/
def trimSpace (s : String) : String :=
  String.mk (((s.toList.dropWhile isSpaceChar).reverse.dropWhile isSpaceChar).reverse)

/-- Outcome of `CommandRunner.Run` as the validator consumes it. -/
structure RunResult where
  stdout : String
  stderr : String
deriving DecidableEq, Repr

/-- `TerraformValidator.runTflint` from `src/unnamed/part_002`:
skip when tflint is unavailable; otherwise run it and report a finding only
when the run returned an error (nonzero exit) and the trimmed stdout is
non-empty; an erroring run with no output is merely logged. -/
def TerraformValidator.runTflint (tflintAvailable : Bool) (res : RunResult)
    (runErr : Bool) : List String :=
  if !tflintAvailable then
    []
  else
    let output := trimSpace res.stdout
    if runErr then
      if output ≠ "" then
        ["⚠️  tflint findings:\n" ++ output]
      else
        []
    else
      []

/-! ## Branch validator (`src/internal/validators/git/branch.go`) -/

/-- One simple command as produced by the shell parser (`parser.Command`);
only its name and raw words are consumed here. -/
structure BashCommand where
  name : String
  words : List String
deriving DecidableEq, Repr

/-- Output of `parser.BashParser.Parse` (`parser.ParseResult`). -/
structure BashParseResult where
  commands : List BashCommand
deriving DecidableEq, Repr

/-- `parser.GitCommand`: a parsed `git` invocation. -/
structure GitCommand where
  subcommand : String
  flags : List String
  args : List String
deriving DecidableEq, Repr

/-- `GitCommand.HasFlag`. -/
def GitCommand.HasFlag (g : GitCommand) (f : String) : Bool :=
  g.flags.contains f

/-- Branch creation flags for `git checkout`. -/
def checkoutCreateFlags : List String := ["-b", "--branch"]

/-- Branch creation flags for `git switch`. -/
def switchCreateFlags : List String := ["-c", "--create", "-C", "--force-create"]

/-- Branch deletion flags for `git branch`. -/
def branchDeleteFlags : List String := ["-d", "-D", "--delete"]

/-- Protected branches that skip validation. -/
def protectedBranches : List String := ["main", "master"]

/-- Valid branch types. -/
def validBranchTypes : List String :=
  ["feat", "fix", "docs", "style", "refactor", "test", "chore", "ci", "build", "perf"]

/-- `hasAnyFlag`. -/
def hasAnyFlag (g : GitCommand) (flags : List String) : Bool :=
  flags.any (fun f => g.HasFlag f)

/-- Modelled from the spec: the branch-name-with-space message template
(`templates.BranchSpaceErrorTemplate`) is not in the sources; its text does
not affect any claim. -/
def branchSpaceErrorMsg : String := "Branch names cannot contain spaces"

/-- Modelled from the spec: the uppercase-branch message template text is
not in the sources. -/
def branchUppercaseMsg : String := "Branch names must be lowercase"

/-- Modelled from the spec: the branch-pattern message template text is not
in the sources. -/
def branchPatternMsg : String := "Branch names must match type/description"

/-- Modelled from the spec: the missing-parts message template text is not
in the sources. -/
def branchMissingPartsMsg : String := "Branch names must have a type and a description"

/-- Modelled from the spec: the invalid-type message template text is not
in the sources. -/
def branchInvalidTypeMsg : String := "Branch type is not in the valid types list"

/-- Lower-case ASCII letter, the `[a-z]` class of `branchNamePattern`. -/
def isLowerAlpha (c : Char) : Bool :=
  'a' ≤ c && c ≤ 'z'

/-- The `[a-z0-9-]` class of `branchNamePattern`. -/
def isLowerAlnumDash (c : Char) : Bool :=
  isLowerAlpha c || ('0' ≤ c && c ≤ '9') || c = '-'

/-- The anchored regex `[a-z]+/[a-z0-9-]+` (`branchNamePattern`): since `/`
is outside both classes, greedy matching equals maximal munch. -/
def branchNamePatternMatch (s : String) : Bool :=
  let cs := s.toList
  let pre := cs.takeWhile isLowerAlpha
  let rest := cs.drop pre.length
  !pre.isEmpty &&
    match rest with
    | '/' :: tail => !tail.isEmpty && tail.all isLowerAlnumDash
    | _ => false

/-- `strings.ToLower` restricted to character-wise lowering. -/
def strToLower (s : String) : String :=
  String.mk (s.toList.map Char.toLower)

/-- `strings.Contains(s, " ")`. -/
def containsSpace (s : String) : Bool :=
  s.toList.any (fun c => c = ' ')

/-- Split at the first `/`, if any. -/
def splitFirstSlash : List Char → Option (List Char × List Char)
  | [] => none
  | '/' :: rest => some ([], rest)
  | c :: rest => (splitFirstSlash rest).map (fun p => (c :: p.1, p.2))

/-- `strings.SplitN(s, "/", 2)`. -/
def splitN2Slash (s : String) : List String :=
  match splitFirstSlash s.toList with
  | none => [s]
  | some (a, b) => [String.mk a, String.mk b]

/-- The element right after the first occurrence of `flag` that has a
successor, per the indexed loops in `extractCheckoutBranchName` /
`extractSwitchBranchName`. -/
def nextAfter (flag : String) : List String → Option String
  | f :: g :: rest => if f = flag then some g else nextAfter flag (g :: rest)
  | _ => none

/-- The outer loop over the create-flag list in the extract functions. -/
def firstFlagValue (flags : List String) : List String → Option String
  | [] => none
  | fl :: rest =>
    match nextAfter fl flags with
    | some v => some v
    | none => firstFlagValue flags rest

/-- `extractCheckoutBranchName`. -/
def extractCheckoutBranchName (g : GitCommand) : String :=
  match firstFlagValue g.flags checkoutCreateFlags with
  | some v => v
  | none =>
    match g.args with
    | a :: _ => a
    | [] => ""

/-- `extractBranchCommandName`. -/
def extractBranchCommandName (g : GitCommand) : String :=
  match g.args with
  | a :: _ => a
  | [] => ""

/-- `extractSwitchBranchName`. -/
def extractSwitchBranchName (g : GitCommand) : String :=
  match firstFlagValue g.flags switchCreateFlags with
  | some v => v
  | none =>
    match g.args with
    | a :: _ => a
    | [] => ""

/-- `BranchValidator.extractBranchName`. -/
def BranchValidator.extractBranchName (g : GitCommand) : String :=
  match g.subcommand with
  | "checkout" => extractCheckoutBranchName g
  | "branch" => extractBranchCommandName g
  | "switch" => extractSwitchBranchName g
  | _ => ""

/-- `BranchValidator.validateBranchName`. -/
def BranchValidator.validateBranchName (branchName : String) : Result :=
  if protectedBranches.contains branchName then
    Result.Pass
  else if branchName ≠ strToLower branchName then
    Result.Fail branchUppercaseMsg
  else if !branchNamePatternMatch branchName then
    Result.Fail branchPatternMsg
  else
    let parts := splitN2Slash branchName
    if parts.length ≠ 2 then
      Result.Fail branchMissingPartsMsg
    else if !validBranchTypes.contains (parts.headD "") then
      Result.Fail branchInvalidTypeMsg
    else
      Result.Pass

/-- `BranchValidator.validateBranchCreation`; `none` models the nil Result. -/
def BranchValidator.validateBranchCreation (g : GitCommand) : Option Result :=
  let branchName := BranchValidator.extractBranchName g
  if branchName = "" then
    none
  else if containsSpace branchName then
    some (Result.Fail branchSpaceErrorMsg)
  else
    some (BranchValidator.validateBranchName branchName)

/-- `BranchValidator.validateCheckout`. -/
def BranchValidator.validateCheckout (g : GitCommand) : Option Result :=
  if !hasAnyFlag g checkoutCreateFlags then
    none
  else
    BranchValidator.validateBranchCreation g

/-- `BranchValidator.validateBranch`. -/
def BranchValidator.validateBranch (g : GitCommand) : Option Result :=
  if hasAnyFlag g branchDeleteFlags then
    none
  else
    BranchValidator.validateBranchCreation g

/-- `BranchValidator.validateSwitch`. -/
def BranchValidator.validateSwitch (g : GitCommand) : Option Result :=
  if !hasAnyFlag g switchCreateFlags then
    none
  else
    BranchValidator.validateBranchCreation g

/-- `BranchValidator.validateGitCommand`. -/
def BranchValidator.validateGitCommand (g : GitCommand) : Option Result :=
  match g.subcommand with
  | "checkout" => BranchValidator.validateCheckout g
  | "branch" => BranchValidator.validateBranch g
  | "switch" => BranchValidator.validateSwitch g
  | _ => none

/-- The loop body of `BranchValidator.Validate`: skip non-git commands and
git commands the git-command parser rejects; return the first non-passing
validation result; otherwise pass. -/
def BranchValidator.validateCommands
    (parseGit : BashCommand → Except String GitCommand) :
    List BashCommand → Result
  | [] => Result.Pass
  | c :: rest =>
    if c.name ≠ "git" then
      BranchValidator.validateCommands parseGit rest
    else
      match parseGit c with
      | Except.error _ => BranchValidator.validateCommands parseGit rest
      | Except.ok g =>
        match BranchValidator.validateGitCommand g with
        | some r =>
          if r.Passed = false then r else BranchValidator.validateCommands parseGit rest
        | none => BranchValidator.validateCommands parseGit rest

/-- `BranchValidator.Validate` from `src/internal/validators/git/branch.go`.
The shell parser (`parser.NewBashParser().Parse`) and
`parser.ParseGitCommand` live outside the sources and are passed as
functions; a shell-parse failure yields `Warn`. -/
def BranchValidator.Validate
    (bashParse : String → Except String BashParseResult)
    (parseGit : BashCommand → Except String GitCommand)
    (command : String) : Result :=
  match bashParse command with
  | Except.error e => Result.Warn ("Failed to parse command: " ++ e)
  | Except.ok pr => BranchValidator.validateCommands parseGit pr.commands

/-! ## JSON hook-input parser (`src/internal/parser/json.go`)

The JSON value model and the tiny text parser below model the lexical layer
of Go's `encoding/json`; the field-matching semantics of `json.Unmarshal`
into the repository's `JSONInput` and `hook.ToolInput` structures is
translated explicitly.  The text parser covers the payload subset the hook
protocol uses (no floats, no `\u` escapes) and is permissive about trailing
separators; no theorem depends on its behaviour beyond the concrete inputs
it is evaluated on. -/

/-- A decoded JSON value. -/
inductive Jsonv where
  | null
  | bool (b : Bool)
  | num (n : Int)
  | str (s : String)
  | arr (elems : List Jsonv)
  | obj (fields : List (String × Jsonv))

/-- The `"` character. -/
def quoteChar : Char := Char.ofNat 34

/-- The `\` character. -/
def backslashChar : Char := Char.ofNat 92

/-- The `\x7b` character. -/
def lbraceChar : Char := Char.ofNat 123

/-- The `\x7d` character. -/
def rbraceChar : Char := Char.ofNat 125

/-- Skip JSON whitespace. -/
def skipWs : List Char → List Char
  | c :: rest =>
    if c = ' ' || c = '\t' || c = '\n' || c = '\r' then skipWs rest else c :: rest
  | [] => []

/-- One JSON string escape. -/
def escChar (e : Char) : Option Char :=
  if e = quoteChar then some quoteChar
  else if e = backslashChar then some backslashChar
  else if e = '/' then some '/'
  else if e = 'n' then some '\n'
  else if e = 't' then some '\t'
  else if e = 'r' then some '\r'
  else if e = 'b' then some (Char.ofNat 8)
  else if e = 'f' then some (Char.ofNat 12)
  else none

/-- The body of a JSON string after the opening quote; returns the content
and the characters after the closing quote. -/
def parseStrChars : Nat → List Char → Option (List Char × List Char)
  | 0, _ => none
  | _, [] => none
  | fuel + 1, c :: rest =>
    if c = quoteChar then
      some ([], rest)
    else if c = backslashChar then
      match rest with
      | [] => none
      | e :: rest2 =>
        match escChar e with
        | none => none
        | some d =>
          match parseStrChars fuel rest2 with
          | none => none
          | some (s, r) => some (d :: s, r)
    else
      match parseStrChars fuel rest with
      | none => none
      | some (s, r) => some (c :: s, r)

/-- Digits to a natural number. -/
def digitsToNat (ds : List Char) : Nat :=
  ds.foldl (fun a c => a * 10 + (c.toNat - 48)) 0

/-- A nonempty digit run. -/
def parseNumTail (cs : List Char) : Option (Nat × List Char) :=
  let ds := cs.takeWhile Char.isDigit
  if ds.isEmpty then none else some (digitsToNat ds, cs.drop ds.length)

/-- One JSON value; array and object tails recurse by re-synthesizing the
opening bracket, so the whole parser is a single function structural in its
fuel. -/
def parseVal : Nat → List Char → Option (Jsonv × List Char)
  | 0, _ => none
  | fuel + 1, cs =>
    match skipWs cs with
    | 'n' :: 'u' :: 'l' :: 'l' :: rest => some (Jsonv.null, rest)
    | 't' :: 'r' :: 'u' :: 'e' :: rest => some (Jsonv.bool true, rest)
    | 'f' :: 'a' :: 'l' :: 's' :: 'e' :: rest => some (Jsonv.bool false, rest)
    | '-' :: rest =>
      match parseNumTail rest with
      | none => none
      | some (n, r) => some (Jsonv.num (-(n : Int)), r)
    | c :: rest =>
      if c = quoteChar then
        match parseStrChars (rest.length + 1) rest with
        | none => none
        | some (s, r) => some (Jsonv.str (String.mk s), r)
      else if c.isDigit then
        match parseNumTail (c :: rest) with
        | none => none
        | some (n, r) => some (Jsonv.num (n : Int), r)
      else if c = '[' then
        match skipWs rest with
        | ']' :: r1 => some (Jsonv.arr [], r1)
        | _ =>
          match parseVal fuel (skipWs rest) with
          | none => none
          | some (v, r) =>
            match skipWs r with
            | ',' :: r2 =>
              match parseVal fuel ('[' :: r2) with
              | some (Jsonv.arr vs, r3) => some (Jsonv.arr (v :: vs), r3)
              | _ => none
            | ']' :: r2 => some (Jsonv.arr [v], r2)
            | _ => none
      else if c = lbraceChar then
        match skipWs rest with
        | [] => none
        | d :: r1 =>
          if d = rbraceChar then
            some (Jsonv.obj [], r1)
          else if d = quoteChar then
            match parseStrChars (r1.length + 1) r1 with
            | none => none
            | some (k, r2) =>
              match skipWs r2 with
              | ':' :: r3 =>
                match parseVal fuel (skipWs r3) with
                | none => none
                | some (v, r4) =>
                  match skipWs r4 with
                  | [] => none
                  | e :: r5 =>
                    if e = ',' then
                      match parseVal fuel (lbraceChar :: r5) with
                      | some (Jsonv.obj ms, r6) =>
                        some (Jsonv.obj ((String.mk k, v) :: ms), r6)
                      | _ => none
                    else if e = rbraceChar then
                      some (Jsonv.obj [(String.mk k, v)], r5)
                    else
                      none
              | _ => none
          else
            none
      else
        none
    | [] => none

/-- Decode a JSON document, requiring only whitespace after the value. -/
def jparse (s : String) : Option Jsonv :=
  match parseVal (2 * s.length + 8) s.toList with
  | some (v, rest) => if (skipWs rest).isEmpty then some v else none
  | none => none

/-- Modelled from the spec: `hook.EventType` (`pkg/hook` is not in the
sources); the event kinds are `PreToolUse`, `PostToolUse`, `Notification`. -/
inductive EventType where
  | PreToolUse
  | PostToolUse
  | Notification
deriving DecidableEq, Repr

/-- Modelled from the spec: `hook.ToolInput` (`pkg/hook` is not in the
sources); optional `command`, `file_path`, `content`, `old_string`,
`new_string`. -/
structure ToolInput where
  Command : String := ""
  FilePath : String := ""
  Content : String := ""
  OldString : String := ""
  NewString : String := ""
deriving DecidableEq, Repr

/-- Modelled from the spec: `hook.Context` (`pkg/hook` is not in the
sources), as populated by `JSONParser.Parse`. -/
structure Context where
  EventType : Klaudiush.EventType
  ToolName : String
  ToolInput : Klaudiush.ToolInput
  NotificationType : String
  RawJSON : String
deriving DecidableEq, Repr

/-- `JSONInput` from `src/internal/parser/json.go`; `ToolInput` is the raw
`json.RawMessage` (`none` when the field is absent). -/
structure JSONInput where
  ToolName : String := ""
  Tool : String := ""
  ToolInput : Option Jsonv := none
  Command : String := ""
  NotificationType : String := ""

/-- Go's `encoding/json` matches object keys to struct tags preferring an
exact match and falling back to a case-insensitive one; with distinct tags
this equals case-insensitive comparison. -/
def keyMatches (k tag : String) : Bool :=
  strToLower k = tag

/-- Decode one top-level member into `JSONInput`: a string (or no-op null)
for the string fields, any value for the raw `tool_input`, and unknown keys
ignored. -/
def setJSONInputField (acc : JSONInput) (k : String) (v : Jsonv) :
    Except String JSONInput :=
  if keyMatches k "tool_name" then
    match v with
    | Jsonv.str s => Except.ok { acc with ToolName := s }
    | Jsonv.null => Except.ok acc
    | _ => Except.error "cannot unmarshal value into string field"
  else if keyMatches k "tool" then
    match v with
    | Jsonv.str s => Except.ok { acc with Tool := s }
    | Jsonv.null => Except.ok acc
    | _ => Except.error "cannot unmarshal value into string field"
  else if keyMatches k "tool_input" then
    Except.ok { acc with ToolInput := some v }
  else if keyMatches k "command" then
    match v with
    | Jsonv.str s => Except.ok { acc with Command := s }
    | Jsonv.null => Except.ok acc
    | _ => Except.error "cannot unmarshal value into string field"
  else if keyMatches k "notification_type" then
    match v with
    | Jsonv.str s => Except.ok { acc with NotificationType := s }
    | Jsonv.null => Except.ok acc
    | _ => Except.error "cannot unmarshal value into string field"
  else
    Except.ok acc

/-- Fold the members of the payload object into `JSONInput`. -/
def unmarshalJSONInputFields :
    List (String × Jsonv) → JSONInput → Except String JSONInput
  | [], acc => Except.ok acc
  | (k, v) :: rest, acc =>
    match setJSONInputField acc k v with
    | Except.error e => Except.error e
    | Except.ok acc2 => unmarshalJSONInputFields rest acc2

/-- `json.Unmarshal(jsonBytes, &input)` on the decoded value: an object is
decoded member by member, `null` is a no-op, anything else is a type error. -/
def unmarshalJSONInput : Jsonv → Except String JSONInput
  | Jsonv.null => Except.ok {}
  | Jsonv.obj fields => unmarshalJSONInputFields fields {}
  | _ => Except.error "cannot unmarshal value into JSONInput"

/-- Decode one `tool_input` member into `hook.ToolInput`.  An ill-typed
member is skipped — the field keeps its previous value — and reported as a
type error, per `encoding/json`, which saves an `UnmarshalTypeError` and
continues with the remaining fields. -/
def setToolInputField (acc : ToolInput) (k : String) (v : Jsonv) :
    ToolInput × Option String :=
  if keyMatches k "command" then
    match v with
    | Jsonv.str s => ({ acc with Command := s }, none)
    | Jsonv.null => (acc, none)
    | _ => (acc, some "cannot unmarshal value into string field")
  else if keyMatches k "file_path" then
    match v with
    | Jsonv.str s => ({ acc with FilePath := s }, none)
    | Jsonv.null => (acc, none)
    | _ => (acc, some "cannot unmarshal value into string field")
  else if keyMatches k "content" then
    match v with
    | Jsonv.str s => ({ acc with Content := s }, none)
    | Jsonv.null => (acc, none)
    | _ => (acc, some "cannot unmarshal value into string field")
  else if keyMatches k "old_string" then
    match v with
    | Jsonv.str s => ({ acc with OldString := s }, none)
    | Jsonv.null => (acc, none)
    | _ => (acc, some "cannot unmarshal value into string field")
  else if keyMatches k "new_string" then
    match v with
    | Jsonv.str s => ({ acc with NewString := s }, none)
    | Jsonv.null => (acc, none)
    | _ => (acc, some "cannot unmarshal value into string field")
  else
    (acc, none)

/-- Fold the members of `tool_input` into `hook.ToolInput`, decoding every
well-typed member and remembering the first type error, per
`encoding/json`'s continue-after-type-error behaviour. -/
def unmarshalToolInputFields :
    List (String × Jsonv) → ToolInput → Option String → ToolInput × Option String
  | [], acc, err => (acc, err)
  | (k, v) :: rest, acc, err =>
    let step := setToolInputField acc k v
    unmarshalToolInputFields rest step.1
      (match err with
        | some e => some e
        | none => step.2)

/-- `json.Unmarshal(input.ToolInput, &toolInput)` on the decoded value: the
(possibly partially) populated struct together with the first type error,
if any.  A non-object, non-null value errors with the struct untouched. -/
def unmarshalToolInput : Jsonv → ToolInput × Option String
  | Jsonv.null => ({}, none)
  | Jsonv.obj fields => unmarshalToolInputFields fields {} none
  | _ => ({}, some "cannot unmarshal value into ToolInput")

/-- Errors of `JSONParser.Parse`. -/
inductive HookParseError where
  | emptyInput
  | invalidJSON (msg : String)
deriving DecidableEq, Repr

/-- The second half of `JSONParser.Parse` (`src/internal/parser/json.go`
lines 61–95): decode the payload and prefer `tool_name` over `tool`.  When
`tool_input` is present its decode runs on the zero `hook.ToolInput`; when
the decode reports an error, the well-typed fields it populated are kept
and only `Command` is overwritten from the top-level `command` field (the
Go code mutates the same `toolInput` variable).  An absent `tool_input`
takes `Command` from the top level. -/
def parseContextFromInput (e : EventType) (raw : String) (input : JSONInput) :
    Context :=
  let toolName := if input.ToolName = "" then input.Tool else input.ToolName
  let ti : ToolInput :=
    match input.ToolInput with
    | some v =>
      let dec := unmarshalToolInput v
      match dec.2 with
      | some _ => { dec.1 with Command := input.Command }
      | none => dec.1
    | none => { Command := input.Command }
  { EventType := e, ToolName := toolName, ToolInput := ti,
    NotificationType := input.NotificationType, RawJSON := raw }

/-- Decode a resolved payload into a hook context. -/
def parsePayload (e : EventType) (jsonBytes : String) :
    Except HookParseError Context :=
  match jparse jsonBytes with
  | none => Except.error (HookParseError.invalidJSON "invalid JSON")
  | some v =>
    match unmarshalJSONInput v with
    | Except.error msg => Except.error (HookParseError.invalidJSON msg)
    | Except.ok input => Except.ok (parseContextFromInput e jsonBytes input)

/-- `JSONParser.Parse` from `src/internal/parser/json.go`: read the stream;
when it yields zero bytes fall back to the `CLAUDE_TOOL_INPUT` environment
variable, and when that is also empty return `ErrEmptyInput`. -/
def JSONParser.Parse (e : EventType) (stdin env : String) :
    Except HookParseError Context :=
  if stdin = "" then
    if env = "" then Except.error HookParseError.emptyInput
    else parsePayload e env
  else
    parsePayload e stdin

/-- A key Go would match (case-insensitively) to a `JSONInput` field tag. -/
def isKnownTopLevelKey (k : String) : Bool :=
  keyMatches k "tool_name" || keyMatches k "tool" || keyMatches k "tool_input" ||
    keyMatches k "command" || keyMatches k "notification_type"

/-! ## Conventional-commit parsers (`src/unnamed/part_005`, `src/unnamed/part_007`)

Two near-duplicate `CommitParser.Parse` implementations live in the repo:
the fallback-enabled one (`part_005`, namespace `CommitA`) and the plain
library-backed one (`part_007`, namespace `CommitB`).  The
go-conventionalcommits machine is external and passed as a function whose
`Option` result models the `*ConventionalCommit` type assertion; the
helpers `isRevertCommit` and `defaultValidTypes` are defined in a file that
is not in the sources and are likewise parameters. -/

/-- The fields of `conventionalcommits.ConventionalCommit` the parsers
consume. -/
structure ConventionalCommit where
  type : String
  scope : Option String
  description : String
  exclamation : Bool
  body : Option String
  footers : Option (List (String × List String))

/-- `ParsedCommit` (identical in both source files). -/
structure ParsedCommit where
  type : String := ""
  scope : String := ""
  description : String := ""
  body : String := ""
  footers : Option (List (String × List String)) := none
  isBreakingChange : Bool := false
  title : String := ""
  raw : String := ""
  valid : Bool := false
  parseError : String := ""

/-- `extractTitle`: the first line of the message. -/
def extractTitle (message : String) : String :=
  String.mk (message.toList.takeWhile (fun c => c ≠ '\n'))

/-- `strings.Contains`. -/
def strContains (s pat : String) : Bool :=
  (s.splitOn pat).length ≠ 1

/-- The `[A-Za-z0-9-]` class of `footerPattern` in `part_005`. -/
def isFooterTokenChar (c : Char) : Bool :=
  ('A' ≤ c && c ≤ 'Z') || ('a' ≤ c && c ≤ 'z') || ('0' ≤ c && c ≤ '9') || c = '-'

/-- The anchored regex `([A-Za-z0-9-]+):\s*(.*)` (`footerPattern`): token
and value of a git-trailer line, or `none`; since `:` is outside the token
class, greedy matching equals maximal munch. -/
def footerMatch (line : String) : Option (String × String) :=
  let cs := line.toList
  let tok := cs.takeWhile isFooterTokenChar
  let rest := cs.drop tok.length
  if tok.isEmpty then
    none
  else
    match rest with
    | ':' :: tail => some (String.mk tok, String.mk (tail.dropWhile isSpaceChar))
    | _ => none

/-- `strings.Split(s, "\n")` on the character list. -/
def splitOnChar (sep : Char) : List Char → List (List Char)
  | [] => [[]]
  | c :: rest =>
    let r := splitOnChar sep rest
    if c = sep then
      [] :: r
    else
      match r with
      | g :: gs => (c :: g) :: gs
      | [] => [[c]]

/-- `strings.Split(message, "\n")`. -/
def splitLines (s : String) : List String :=
  (splitOnChar '\n' s.toList).map String.mk

/-- `strings.Join(lines, "\n")`. -/
def joinLines : List String → String
  | [] => ""
  | [l] => l
  | l :: rest => l ++ "\n" ++ joinLines rest

/-- `strings.TrimRight(s, "\n")`. -/
def trimRightNewlines (s : String) : String :=
  String.mk ((s.toList.reverse.dropWhile (fun c => c = '\n')).reverse)

/-- `result.Footers[token] = append(result.Footers[token], value)` on the
association-list model of the footers map. -/
def appendFooter : List (String × List String) → String → String → List (String × List String)
  | [], token, value => [(token, [value])]
  | (t, vs) :: rest, token, value =>
    if t = token then
      (t, vs ++ [value]) :: rest
    else
      (t, vs) :: appendFooter rest token value

/-- The per-line loop of `extractFootersFromLines` (`part_005`). -/
def extractFootersLoop : List String → ParsedCommit → ParsedCommit
  | [], r => r
  | line :: rest, r =>
    let trimmedLine := trimSpace line
    if trimmedLine = "" then
      extractFootersLoop rest r
    else
      match footerMatch trimmedLine with
      | none => extractFootersLoop rest r
      | some (token, value) =>
        let r1 : ParsedCommit :=
          { r with footers := some (appendFooter (r.footers.getD []) token value) }
        let r2 : ParsedCommit :=
          if token = "BREAKING CHANGE" || token = "BREAKING-CHANGE" then
            { r1 with isBreakingChange := true }
          else
            r1
        extractFootersLoop rest r2

/-- `extractFootersFromLines` (`part_005`): initialize the footers map when
nil, then fold the footer lines. -/
def extractFootersFromLines (footerLines : List String) (result : ParsedCommit) :
    ParsedCommit :=
  let result1 :=
    match result.footers with
    | none => { result with footers := some [] }
    | some _ => result
  extractFootersLoop footerLines result1

/-- `findFooterStartIndex` (`part_005`): scan backwards for the first blank
or non-trailer line; when every body line is a trailer the whole body is
footers. -/
def findFooterStartIndex (bodyLines : List String) : Nat :=
  let count :=
    (bodyLines.reverse.takeWhile
      (fun l => trimSpace l ≠ "" && (footerMatch (trimSpace l)).isSome)).length
  bodyLines.length - count

/-- `extractBodyAndFooters` (`part_005`): the manual body/footer extraction
used when the library rejected the full message on trailer validation. -/
def extractBodyAndFooters (message : String) (result : ParsedCommit) : ParsedCommit :=
  let lines := splitLines message
  if lines.length ≤ 1 then
    result
  else
    let bodyLines := (lines.drop 1).dropWhile (fun l => trimSpace l = "")
    if bodyLines.isEmpty then
      result
    else
      let footerStartIdx := findFooterStartIndex bodyLines
      if footerStartIdx < bodyLines.length then
        let result1 := extractFootersFromLines (bodyLines.drop footerStartIdx) result
        { result1 with body := trimRightNewlines (joinLines (bodyLines.take footerStartIdx)) }
      else
        { result with body := joinLines bodyLines }

namespace CommitA

/-- `extractLibraryBodyAndFooters` (`part_005`): copy body and footers from
the library's parse result and detect breaking-change footers. -/
def extractLibraryBodyAndFooters (cc : ConventionalCommit) (result : ParsedCommit) :
    ParsedCommit :=
  let result1 :=
    match cc.body with
    | some b => { result with body := b }
    | none => result
  match cc.footers with
  | none => result1
  | some fs =>
    let result2 := { result1 with footers := some fs }
    let result3 :=
      if fs.any (fun p => p.1 = "BREAKING CHANGE") then
        { result2 with isBreakingChange := true }
      else
        result2
    if fs.any (fun p => p.1 = "BREAKING-CHANGE") then
      { result3 with isBreakingChange := true }
    else
      result3

/-- `handleParseError` (`part_005`): fall back only for trailer validation
errors, reparsing just the title and manually extracting body and footers. -/
def handleParseError (machine : String → Except String (Option ConventionalCommit))
    (err : String) (title message : String) (result : ParsedCommit) :
    Except String (Option ConventionalCommit × Bool × ParsedCommit) :=
  if !strContains err "trailer" then
    Except.error err
  else
    match machine title with
    | Except.error titleErr => Except.error titleErr
    | Except.ok msg => Except.ok (msg, true, extractBodyAndFooters message result)

/-- The common tail of `Parse` (`part_005` lines 124–157): the type
assertion, field extraction, library body/footer extraction unless the
fallback already populated them, and the valid-type check. -/
def finishParse (validTypes : List String) (usedFallback : Bool)
    (msg : Option ConventionalCommit) (result : ParsedCommit) : ParsedCommit :=
  match msg with
  | none => { result with parseError := "failed to parse as conventional commit" }
  | some cc =>
    let result1 : ParsedCommit :=
      { result with type := cc.type, description := cc.description, isBreakingChange := cc.exclamation }
    let result2 :=
      match cc.scope with
      | some s => { result1 with scope := s }
      | none => result1
    let result3 :=
      if usedFallback then result2 else extractLibraryBodyAndFooters cc result2
    if validTypes.length > 0 && !validTypes.contains result3.type then
      { result3 with parseError := "invalid commit type: " ++ result3.type, valid := false }
    else
      { result3 with valid := true }

/-- `CommitParser.Parse` from `src/unnamed/part_005` (fallback-enabled). -/
def Parse (machine : String → Except String (Option ConventionalCommit))
    (isRevert : String → Bool) (validTypes : List String)
    (message : String) : ParsedCommit :=
  let result : ParsedCommit := { raw := message }
  if message = "" then
    result
  else
    let title := extractTitle message
    let result1 := { result with title := title }
    if isRevert title then
      { result1 with valid := true, type := "revert" }
    else
      match machine message with
      | Except.ok msg => finishParse validTypes false msg result1
      | Except.error err =>
        match handleParseError machine err title message result1 with
        | Except.error e => { result1 with parseError := e }
        | Except.ok (msg, usedFallback, result2) =>
          finishParse validTypes usedFallback msg result2

end CommitA

namespace CommitB

/-- `CommitParser.Parse` from `src/unnamed/part_007` (plain library-backed),
with the body/footer extraction inline as in its source. -/
def Parse (machine : String → Except String (Option ConventionalCommit))
    (isRevert : String → Bool) (validTypes : List String)
    (message : String) : ParsedCommit :=
  let result : ParsedCommit := { raw := message }
  if message = "" then
    result
  else
    let title := extractTitle message
    let result1 := { result with title := title }
    if isRevert title then
      { result1 with valid := true, type := "revert" }
    else
      match machine message with
      | Except.error err => { result1 with parseError := err }
      | Except.ok none =>
        { result1 with parseError := "failed to parse as conventional commit" }
      | Except.ok (some cc) =>
        let result2 : ParsedCommit :=
          { result1 with type := cc.type, description := cc.description, isBreakingChange := cc.exclamation }
        let result3 :=
          match cc.scope with
          | some s => { result2 with scope := s }
          | none => result2
        let result4 :=
          match cc.body with
          | some b => { result3 with body := b }
          | none => result3
        let result5 :=
          match cc.footers with
          | none => result4
          | some fs =>
            let r := { result4 with footers := some fs }
            let r1 :=
              if fs.any (fun p => p.1 = "BREAKING CHANGE") then
                { r with isBreakingChange := true }
              else
                r
            if fs.any (fun p => p.1 = "BREAKING-CHANGE") then
              { r1 with isBreakingChange := true }
            else
              r1
        if validTypes.length > 0 && !validTypes.contains result5.type then
          { result5 with parseError := "invalid commit type: " ++ result5.type, valid := false }
        else
          { result5 with valid := true }

end CommitB

/-! # Theorems -/

/-- Helper: an unknown top-level member is ignored by the field decoder. -/
theorem setJSONInputField_unknown (acc : JSONInput) (k : String) (v : Jsonv)
    (h : isKnownTopLevelKey k = false) : setJSONInputField acc k v = Except.ok acc := by
  simp only [isKnownTopLevelKey, keyMatches, Bool.or_eq_false_iff,
    decide_eq_false_iff_not] at h
  obtain ⟨⟨⟨⟨h1, h2⟩, h3⟩, h4⟩, h5⟩ := h
  simp [setJSONInputField, keyMatches, h1, h2, h3, h4, h5]

/-- Helper: dropping an unknown member anywhere in the member list does not
change the fold. -/
theorem unmarshalJSONInputFields_unknown (pre post : List (String × Jsonv))
    (k : String) (v : Jsonv) (acc : JSONInput) (h : isKnownTopLevelKey k = false) :
    unmarshalJSONInputFields (pre ++ (k, v) :: post) acc =
      unmarshalJSONInputFields (pre ++ post) acc := by
  induction pre generalizing acc with
  | nil =>
    simp [unmarshalJSONInputFields, setJSONInputField_unknown _ _ _ h]
  | cons p rest ih =>
    obtain ⟨k0, v0⟩ := p
    simp only [List.cons_append, unmarshalJSONInputFields]
    cases h0 : setJSONInputField acc k0 v0 with
    | error e => rfl
    | ok acc2 => exact ih acc2

/-- Helper: the context built by `parsePayload` carries the caller-supplied
event type. -/
theorem parsePayload_eventType (e : EventType) (s : String) (ctx : Context)
    (h : parsePayload e s = Except.ok ctx) : ctx.EventType = e := by
  unfold parsePayload at h
  split at h
  · exact absurd h (by simp)
  · split at h
    · exact absurd h (by simp)
    · injection h with h2
      rw [← h2]
      rfl


/-- C1: every Result produced through the validator-contract constructors
satisfies `Passed ⇒ !ShouldBlock`; in particular `Warn` yields
`Passed = false` together with `ShouldBlock = false`. -/
theorem c1_result_passed_implies_not_shouldBlock (r : Result)
    (h : r.Constructed) :
    (r.Passed = true → r.ShouldBlock = false) ∧
      (∀ m, (Result.Warn m).Passed = false ∧ (Result.Warn m).ShouldBlock = false) := by
  refine ⟨?_, fun m => ⟨rfl, rfl⟩⟩
  rcases h with h | ⟨m, h⟩ | ⟨m, h⟩ | ⟨c, m, f, u, h⟩ | ⟨m, d, h⟩ | ⟨m, d, h⟩ <;>
    subst h <;> simp [Result.Pass, Result.Warn, Result.Fail, Result.FailWithCode,
      Result.WarnWithDetails, Result.FailWithDetails]

/-- C1 witness: the invariant applied at the concrete result `Pass()`. -/
theorem c1_witness :
    Result.Pass.ShouldBlock = false ∧
      (Result.Warn "w").Passed = false ∧ (Result.Warn "w").ShouldBlock = false := by
  have h := c1_result_passed_implies_not_shouldBlock Result.Pass (Or.inl rfl)
  exact ⟨h.1 rfl, (h.2 "w").1, (h.2 "w").2⟩

/-- C7: `GetMaxSessionAge` returns the 24-hour default exactly when the
receiver is nil or `MaxSessionAge` is unset (zero), and the configured
duration otherwise. -/
theorem c7_getMaxSessionAge_default :
    SessionConfig.GetMaxSessionAge none = DefaultMaxSessionAge ∧
      (∀ c : SessionConfig, c.MaxSessionAge = 0 →
        SessionConfig.GetMaxSessionAge (some c) = DefaultMaxSessionAge) ∧
      (∀ c : SessionConfig, c.MaxSessionAge ≠ 0 →
        SessionConfig.GetMaxSessionAge (some c) = c.MaxSessionAge) ∧
      DefaultMaxSessionAge = 86400 * 1000000000 := by
  refine ⟨rfl, fun c h => ?_, fun c h => ?_, by norm_num [DefaultMaxSessionAge]⟩
  · simp [SessionConfig.GetMaxSessionAge, h]
  · simp [SessionConfig.GetMaxSessionAge, h]

/-- C7 witness: the default at a nil receiver and an unset config, and a
configured one-hour age returned as configured. -/
theorem c7_witness :
    SessionConfig.GetMaxSessionAge (some { MaxSessionAge := 0 }) = DefaultMaxSessionAge ∧
      SessionConfig.GetMaxSessionAge (some { MaxSessionAge := 3600000000000 }) =
        3600000000000 := by
  exact ⟨c7_getMaxSessionAge_default.2.1 _ rfl,
    c7_getMaxSessionAge_default.2.2.1 { MaxSessionAge := 3600000000000 } (by decide)⟩

/-- C4: a world-writable config file is rejected with
`ErrInvalidPermissions` regardless of the TOML decoder (so the contents are
never parsed), and a non-world-writable file whose contents decode as valid
TOML loads successfully. -/
theorem c4_loadFile_permissions :
    (∀ (Cfg : Type) (d d' : String → Except String Cfg) (f : FSFile),
      f.perm &&& 2 ≠ 0 →
        Loader.LoadFile d (some f) = Except.error LoadFileError.invalidPermissions ∧
          Loader.LoadFile d (some f) = Loader.LoadFile d' (some f)) ∧
      (∀ (Cfg : Type) (d : String → Except String Cfg) (f : FSFile) (cfg : Cfg),
        f.perm &&& 2 = 0 → d f.data = Except.ok cfg →
          Loader.LoadFile d (some f) = Except.ok cfg) := by
  constructor
  · intro Cfg d d' f h
    constructor <;> simp [Loader.LoadFile, h]
  · intro Cfg d f cfg h hd
    simp [Loader.LoadFile, h, hd]

/-- C4 witness: permission mode 0o666 is refused with either decoder;
mode 0o644 with decodable contents loads. -/
theorem c4_witness :
    Loader.LoadFile (fun _ => Except.ok (0 : Nat)) (some ⟨438, "x"⟩) =
        Except.error LoadFileError.invalidPermissions ∧
      Loader.LoadFile (fun _ => Except.ok (0 : Nat)) (some ⟨438, "x"⟩) =
        Loader.LoadFile (fun _ => Except.error "boom") (some ⟨438, "x"⟩) ∧
      Loader.LoadFile (fun _ => Except.ok (7 : Nat)) (some ⟨420, "x"⟩) =
        Except.ok 7 := by
  have h1 := c4_loadFile_permissions.1 Nat (fun _ => Except.ok 0)
    (fun _ => Except.error "boom") ⟨438, "x"⟩ (by decide)
  have h2 := c4_loadFile_permissions.2 Nat (fun _ => Except.ok 7) ⟨420, "x"⟩ 7
    (by decide) rfl
  exact ⟨h1.1, h1.2, h2⟩

/-- C6 counterexample: with tflint available, a nonzero exit whose stdout is
the non-empty string made of one space yields no finding, refuting "a
non-empty finding exactly when tflint exits nonzero with non-empty standard
output" as stated. -/
theorem c6_counterexample :
    TerraformValidator.runTflint true ⟨" ", ""⟩ true = [] ∧ (" " : String) ≠ "" := by
  constructor
  · rfl
  · decide

/-- C6 amended: with tflint available, `runTflint` returns a non-empty
finding exactly when the run errored (nonzero exit) and stdout is non-empty
after trimming whitespace; an unavailable tflint yields no finding. -/
theorem c6_runTflint_findings (res : RunResult) (runErr : Bool) :
    (TerraformValidator.runTflint true res runErr ≠ [] ↔
        runErr = true ∧ trimSpace res.stdout ≠ "") ∧
      TerraformValidator.runTflint false res runErr = [] := by
  constructor
  · cases runErr <;>
      by_cases h : trimSpace res.stdout = "" <;>
        simp [TerraformValidator.runTflint, h]
  · rfl

/-- C5: whenever the shell parser rejects the command string,
`BranchValidator.Validate` returns the non-blocking `Warn` result built from
the parse error — never a blocking result. -/
theorem c5_branch_warn_on_parse_error
    (bashParse : String → Except String BashParseResult)
    (parseGit : BashCommand → Except String GitCommand)
    (command e : String) (h : bashParse command = Except.error e) :
    BranchValidator.Validate bashParse parseGit command =
        Result.Warn ("Failed to parse command: " ++ e) ∧
      (BranchValidator.Validate bashParse parseGit command).ShouldBlock = false ∧
      (BranchValidator.Validate bashParse parseGit command).Passed = false := by
  simp [BranchValidator.Validate, h, Result.Warn]

/-- C5 witness: a concrete rejecting shell parser on the command string
made of one open parenthesis. -/
theorem c5_witness :
    BranchValidator.Validate (fun _ => Except.error "unexpected token")
        (fun _ => Except.error "not git") "(" =
        Result.Warn ("Failed to parse command: " ++ "unexpected token") ∧
      (BranchValidator.Validate (fun _ => Except.error "unexpected token")
          (fun _ => Except.error "not git") "(").ShouldBlock = false := by
  have h := c5_branch_warn_on_parse_error (fun _ => Except.error "unexpected token")
    (fun _ => Except.error "not git") "(" "unexpected token" rfl
  exact ⟨h.1, h.2.1⟩

/-- C2 counterexample: parsing the payload consisting of the empty JSON
object for a `PreToolUse` event succeeds and returns a context whose
`ToolKind` is empty and in which none of the `ToolInput` fields is present,
refuting the claimed invariant as stated. -/
theorem c2_counterexample :
    JSONParser.Parse EventType.PreToolUse "\x7b\x7d" "" =
      Except.ok
        { EventType := EventType.PreToolUse, ToolName := "",
          ToolInput := { Command := "", FilePath := "", Content := "", OldString := "", NewString := "" },
          NotificationType := "", RawJSON := "\x7b\x7d" } := by
  rfl

/-- C2 amended: every hook context returned by `JSONParser.Parse` has its
`EventKind` set — it is the event type supplied by the caller — while
`ToolKind` and the `ToolInput` fields are copied from the payload and may
all be empty, even for non-`Notification` events. -/
theorem c2_eventKind_always_set (e : EventType) (stdin env : String)
    (ctx : Context) (h : JSONParser.Parse e stdin env = Except.ok ctx) :
    ctx.EventType = e := by
  unfold JSONParser.Parse at h
  by_cases hs : stdin = ""
  · rw [if_pos hs] at h
    by_cases he : env = ""
    · rw [if_pos he] at h; exact absurd h (by simp)
    · rw [if_neg he] at h; exact parsePayload_eventType e env ctx h
  · rw [if_neg hs] at h; exact parsePayload_eventType e stdin ctx h

/-- C2 witness: the amended invariant applied at the empty-object payload. -/
theorem c2_witness :
    Context.EventType
        { EventType := EventType.PreToolUse, ToolName := "",
          ToolInput := { Command := "", FilePath := "", Content := "", OldString := "", NewString := "" },
          NotificationType := "", RawJSON := "\x7b\x7d" } =
      EventType.PreToolUse :=
  c2_eventKind_always_set EventType.PreToolUse "\x7b\x7d" "" _ (by rfl)

/-- C3: the payload comes from the stream when it is non-empty; a zero-byte
stream falls back to `CLAUDE_TOOL_INPUT`; when both are empty the parser
returns `ErrEmptyInput` (and hence no context); and an unknown top-level
member never changes — in particular never fails — the payload decode. -/
theorem c3_payload_sources_and_unknown_fields :
    (∀ e : EventType, JSONParser.Parse e "" "" = Except.error HookParseError.emptyInput) ∧
      (∀ (e : EventType) (env : String), env ≠ "" →
        JSONParser.Parse e "" env = parsePayload e env) ∧
      (∀ (e : EventType) (stdin env : String), stdin ≠ "" →
        JSONParser.Parse e stdin env = parsePayload e stdin) ∧
      (∀ (pre post : List (String × Jsonv)) (k : String) (v : Jsonv),
        isKnownTopLevelKey k = false →
          unmarshalJSONInput (Jsonv.obj (pre ++ (k, v) :: post)) =
            unmarshalJSONInput (Jsonv.obj (pre ++ post))) := by
  refine ⟨fun e => rfl, fun e env he => ?_, fun e stdin env hs => ?_,
    fun pre post k v hk => ?_⟩
  · simp [JSONParser.Parse, he]
  · simp [JSONParser.Parse, hs]
  · simpa [unmarshalJSONInput] using
      unmarshalJSONInputFields_unknown pre post k v {} hk

/-- C3 witness: both fallbacks and the unknown member `zzz` at a concrete
payload. -/
theorem c3_witness :
    JSONParser.Parse EventType.PreToolUse "" "" =
        Except.error HookParseError.emptyInput ∧
      JSONParser.Parse EventType.PreToolUse "" "null" =
        parsePayload EventType.PreToolUse "null" ∧
      JSONParser.Parse EventType.PostToolUse "null" "" =
        parsePayload EventType.PostToolUse "null" ∧
      unmarshalJSONInput (Jsonv.obj ([] ++ ("zzz", Jsonv.num 1) :: [])) =
        unmarshalJSONInput (Jsonv.obj ([] ++ [])) := by
  exact ⟨c3_payload_sources_and_unknown_fields.1 EventType.PreToolUse,
    c3_payload_sources_and_unknown_fields.2.1 EventType.PreToolUse "null" (by decide),
    c3_payload_sources_and_unknown_fields.2.2.1 EventType.PostToolUse "null" "" (by decide),
    c3_payload_sources_and_unknown_fields.2.2.2 [] [] "zzz" (Jsonv.num 1) (by decide)⟩

/-- C9 counterexample: in the payload `\x7b"tool_name":5\x7d` the
`tool_input` field is absent, yet `JSONParser.Parse` fails (the top-level
decode rejects the number in `tool_name`), refuting the claim's universal
quantification over payloads as stated. -/
theorem c9_counterexample :
    JSONParser.Parse EventType.PreToolUse "\x7b\"tool_name\":5\x7d" "" =
      Except.error
        (HookParseError.invalidJSON "cannot unmarshal value into string field") := by
  rfl

/-- C9 amended: for every payload whose top-level fields decode into the
input structure, if `tool_input` is absent, or present but not decodable as
a tool-input object, the parse still succeeds and the context's
`ToolInput.Command` is the payload's top-level `command` field (empty when
that field is absent). -/
theorem c9_toolInput_fallback (e : EventType) (jsonBytes : String) (v : Jsonv)
    (input : JSONInput) (hj : jparse jsonBytes = some v)
    (hu : unmarshalJSONInput v = Except.ok input)
    (hti : input.ToolInput = none ∨
      ∃ w, input.ToolInput = some w ∧ (unmarshalToolInput w).2 ≠ none) :
    parsePayload e jsonBytes = Except.ok (parseContextFromInput e jsonBytes input) ∧
      (parseContextFromInput e jsonBytes input).ToolInput.Command = input.Command := by
  constructor
  · simp [parsePayload, hj, hu]
  · rcases hti with h | ⟨w, hw, herr⟩
    · simp [parseContextFromInput, h]
    · cases hp : (unmarshalToolInput w).2 with
      | none => exact absurd hp herr
      | some msg => simp [parseContextFromInput, hw, hp]

/-- C9 witness: the amended statement applied at a concrete payload whose
`tool_input` is present but not decodable as a tool-input object (its
`file_path` member is a number, so the decode reports a type error), with
`Command` taken from the top-level `command` field. -/
theorem c9_witness :
    parsePayload EventType.PreToolUse
        "\x7b\"tool_input\":\x7b\"content\":\"c\",\"file_path\":5\x7d,\"command\":\"ls\"\x7d" =
      Except.ok (parseContextFromInput EventType.PreToolUse
        "\x7b\"tool_input\":\x7b\"content\":\"c\",\"file_path\":5\x7d,\"command\":\"ls\"\x7d"
        { ToolInput := some (Jsonv.obj [("content", Jsonv.str "c"), ("file_path", Jsonv.num 5)]),
          Command := "ls" }) ∧
      (parseContextFromInput EventType.PreToolUse
        "\x7b\"tool_input\":\x7b\"content\":\"c\",\"file_path\":5\x7d,\"command\":\"ls\"\x7d"
        { ToolInput := some (Jsonv.obj [("content", Jsonv.str "c"), ("file_path", Jsonv.num 5)]),
          Command := "ls" }).ToolInput.Command = "ls" := by
  exact c9_toolInput_fallback EventType.PreToolUse
    "\x7b\"tool_input\":\x7b\"content\":\"c\",\"file_path\":5\x7d,\"command\":\"ls\"\x7d"
    (Jsonv.obj [("tool_input",
      Jsonv.obj [("content", Jsonv.str "c"), ("file_path", Jsonv.num 5)]),
      ("command", Jsonv.str "ls")])
    { ToolInput := some (Jsonv.obj [("content", Jsonv.str "c"), ("file_path", Jsonv.num 5)]),
      Command := "ls" }
    (by rfl) (by rfl)
    (Or.inr ⟨Jsonv.obj [("content", Jsonv.str "c"), ("file_path", Jsonv.num 5)],
      rfl, by decide⟩)

/-- Helper: the footer loop never touches `Raw`. -/
theorem extractFootersLoop_raw (lines : List String) (r : ParsedCommit) :
    (extractFootersLoop lines r).raw = r.raw := by
  induction lines generalizing r with
  | nil => rfl
  | cons line rest ih =>
    unfold extractFootersLoop
    dsimp only
    by_cases h : trimSpace line = ""
    · simp only [h, if_pos]
      exact ih r
    · rw [if_neg h]
      cases hfm : footerMatch (trimSpace line) with
      | none => exact ih r
      | some p =>
        obtain ⟨token, value⟩ := p
        dsimp only
        rw [ih]
        split <;> rfl

/-- Helper: `extractFootersFromLines` never touches `Raw`. -/
theorem extractFootersFromLines_raw (lines : List String) (r : ParsedCommit) :
    (extractFootersFromLines lines r).raw = r.raw := by
  unfold extractFootersFromLines
  cases hf : r.footers <;> dsimp only <;> rw [extractFootersLoop_raw]

/-- Helper: the manual body/footer extraction never touches `Raw`. -/
theorem extractBodyAndFooters_raw (message : String) (r : ParsedCommit) :
    (extractBodyAndFooters message r).raw = r.raw := by
  unfold extractBodyAndFooters
  dsimp only
  split
  · rfl
  · split
    · rfl
    · split
      · simp [extractFootersFromLines_raw]
      · rfl

/-- Helper: the library body/footer copy never touches `Raw`. -/
theorem extractLibraryBodyAndFooters_raw (cc : ConventionalCommit)
    (r : ParsedCommit) :
    (CommitA.extractLibraryBodyAndFooters cc r).raw = r.raw := by
  obtain ⟨t, sc, d, ex, b, fo⟩ := cc
  unfold CommitA.extractLibraryBodyAndFooters
  cases b <;> cases fo <;> dsimp only <;> (repeat' split) <;> rfl

/-- Helper: the shared parse tail never touches `Raw`. -/
theorem finishParse_raw (validTypes : List String) (uf : Bool)
    (msg : Option ConventionalCommit) (r : ParsedCommit) :
    (CommitA.finishParse validTypes uf msg r).raw = r.raw := by
  cases msg with
  | none => rfl
  | some cc =>
    obtain ⟨t, sc, d, ex, b, fo⟩ := cc
    unfold CommitA.finishParse
    dsimp only
    cases sc <;>
      simp [apply_ite ParsedCommit.raw, extractLibraryBodyAndFooters_raw]

/-- Helper: the fallback handler preserves `Raw` in its returned commit. -/
theorem handleParseError_raw
    (machine : String → Except String (Option ConventionalCommit))
    (err title message : String) (r : ParsedCommit)
    (msg : Option ConventionalCommit) (uf : Bool) (r2 : ParsedCommit)
    (h : CommitA.handleParseError machine err title message r =
      Except.ok (msg, uf, r2)) :
    r2.raw = r.raw := by
  unfold CommitA.handleParseError at h
  split at h
  · exact absurd h (by simp)
  · split at h
    · exact absurd h (by simp)
    · simp only [Except.ok.injEq, Prod.mk.injEq] at h
      obtain ⟨_, _, h5⟩ := h
      rw [← h5]
      exact extractBodyAndFooters_raw message r

/-- C8: on every commit message that the go-conventionalcommits machine
parses without error (so the trailer fallback is never taken), the
fallback-enabled parser of `part_005` and the plain parser of `part_007`
return equal `ParsedCommit` values. -/
theorem c8_parsers_agree_without_fallback
    (machine : String → Except String (Option ConventionalCommit))
    (isRevert : String → Bool) (validTypes : List String)
    (message : String) (msg : Option ConventionalCommit)
    (h : machine message = Except.ok msg) :
    CommitA.Parse machine isRevert validTypes message =
      CommitB.Parse machine isRevert validTypes message := by
  unfold CommitA.Parse CommitB.Parse
  by_cases hm : message = ""
  · simp [hm]
  · rw [if_neg hm, if_neg hm]
    dsimp only
    by_cases hr : isRevert (extractTitle message) = true
    · rw [if_pos hr, if_pos hr]
    · rw [if_neg hr, if_neg hr, h]
      clear h
      cases msg with
      | none => rfl
      | some cc =>
        obtain ⟨t, sc, d, ex, b, fo⟩ := cc
        unfold CommitA.finishParse CommitA.extractLibraryBodyAndFooters
        cases sc <;> cases b <;> cases fo <;> dsimp only <;> rfl

/-- C8 witness: both parsers at the concrete message `feat: x` with a
machine that succeeds on it. -/
theorem c8_witness :
    CommitA.Parse
        (fun _ => Except.ok (some
          { type := "feat", scope := none, description := "x",
            exclamation := false, body := none, footers := none }))
        (fun _ => false) ["feat", "fix"] "feat: x" =
      CommitB.Parse
        (fun _ => Except.ok (some
          { type := "feat", scope := none, description := "x",
            exclamation := false, body := none, footers := none }))
        (fun _ => false) ["feat", "fix"] "feat: x" :=
  c8_parsers_agree_without_fallback _ _ _ "feat: x" _ rfl

/-- C10: both `CommitParser.Parse` variants are total — the returned commit
always exists and carries the message as `Raw` — and on the empty message
they return the commit with empty `Raw`, `Valid = false`, and an empty
`ParseError` (no fabricated error). -/
theorem c10_parse_total_and_empty :
    (∀ (machine : String → Except String (Option ConventionalCommit))
        (isRevert : String → Bool) (validTypes : List String),
      CommitA.Parse machine isRevert validTypes "" =
          { raw := "", valid := false, parseError := "" } ∧
        CommitB.Parse machine isRevert validTypes "" =
          { raw := "", valid := false, parseError := "" }) ∧
      (∀ (machine : String → Except String (Option ConventionalCommit))
          (isRevert : String → Bool) (validTypes : List String)
          (message : String),
        (CommitA.Parse machine isRevert validTypes message).raw = message ∧
          (CommitB.Parse machine isRevert validTypes message).raw = message) := by
  constructor
  · intro machine isRevert validTypes
    exact ⟨rfl, rfl⟩
  · intro machine isRevert validTypes message
    constructor
    · unfold CommitA.Parse
      dsimp only
      split
      · rfl
      · split
        · rfl
        · split
          · rw [finishParse_raw]
          · split
            · rfl
            · rename_i heq
              rw [finishParse_raw]
              exact handleParseError_raw _ _ _ _ _ _ _ _ heq
    · unfold CommitB.Parse
      dsimp only
      split
      · rfl
      · split
        · rfl
        · split
          · rfl
          · rfl
          · rename_i cc heq
            clear heq
            obtain ⟨t, sc, d, ex, b, fo⟩ := cc
            cases sc <;> cases b <;> cases fo <;> dsimp only <;>
              (repeat' split) <;> rfl

end Klaudiush
